import Mathlib

/-!
Shallow embedding of the email-parser library (src/types.rs, src/parser.rs,
src/extracted.rs).  Rust strings are modelled as `List Char` (sequences of
Unicode scalar values); byte offsets, where the source manipulates them,
are recovered through `Char.utf8Size`.  All delimiters searched for by the
modelled code are ASCII, so `find`/slicing at found positions agrees between
the byte-level original and this character-level model.
-/

abbrev Str := List Char

def str (s : String) : Str := s.data

/-- Models Rust `char::is_whitespace` (exact on ASCII input). -/
def isWs (c : Char) : Bool := c.isWhitespace

/-- Models Rust `str::trim_start`. -/
def ltrim (s : Str) : Str := s.dropWhile isWs

/-- Models Rust `str::trim_end`. -/
def rtrim (s : Str) : Str := (s.reverse.dropWhile isWs).reverse

/-- Models Rust `str::trim`. -/
def trim (s : Str) : Str := rtrim (ltrim s)

/-- Models Rust `str::trim_matches(c)`: strip all leading and trailing
occurrences of the character `c`. -/
def trimMatchesChar (c : Char) (s : Str) : Str :=
  ((s.dropWhile (· == c)).reverse.dropWhile (· == c)).reverse

/-- Helper for `findSub`: first index `≥ i` at which `pat` occurs. -/
def findSubAux (pat : Str) : Str → Nat → Option Nat
  | [], i => if pat.isPrefixOf ([] : Str) then some i else none
  | c :: rest, i =>
      if pat.isPrefixOf (c :: rest) then some i else findSubAux pat rest (i + 1)

/-- Models Rust `str::find(pattern)` (index of first occurrence). -/
def findSub (pat s : Str) : Option Nat := findSubAux pat s 0

/-- Models Rust `str::contains(pattern)`. -/
def containsSub (pat s : Str) : Bool := (findSub pat s).isSome

/-- Models Rust `str::ends_with(pattern)`. -/
def endsWithSub (pat s : Str) : Bool := pat.reverse.isPrefixOf s.reverse

/-- Models Rust `str::split_once(c)`: split at the first occurrence of `c`. -/
def splitOnce (c : Char) (s : Str) : Option (Str × Str) :=
  match findSub [c] s with
  | some i => some (s.take i, s.drop (i + 1))
  | none => none

/-- Models Rust `String::to_lowercase` (character-wise; exact on ASCII). -/
def toLowerStr (s : Str) : Str := s.map Char.toLower

/-- Models Rust `str::split_whitespace().collect()`. -/
def splitWhitespace (s : Str) : List Str :=
  let step : Char → Str × List Str → Str × List Str := fun c acc =>
    if isWs c then
      if acc.1 = [] then ([], acc.2) else ([], acc.1 :: acc.2)
    else (c :: acc.1, acc.2)
  let r := s.foldr step ([], [])
  if r.1 = [] then r.2 else r.1 :: r.2

/- ---------- types.rs: PersonName ---------- -/

structure PersonName where
  full : Str
  first : Option Str
  last : Option Str
deriving DecidableEq, Repr

/-- Models `PersonName::parse` (src/types.rs). -/
def PersonName.parse (s0 : Str) : PersonName :=
  let s := trimMatchesChar '"' (trim s0)
  match splitWhitespace s with
  | [] => { full := [], first := none, last := none }
  | [p] => { full := p, first := some p, last := none }
  | p1 :: p2 :: rest =>
      { full := s, first := some p1, last := some ((p2 :: rest).getLastD p2) }

/- ---------- types.rs: EmailAddress ---------- -/

structure EmailAddress where
  name : Option PersonName
  address : Str
  domain : Str
  local_part : Str
deriving DecidableEq, Repr

/-- Result of running `EmailAddress::parse`: either a Rust panic (out-of-order
slice bounds) or a normal `Option` return. -/
inductive ParseResult where
  | panic : ParseResult
  | ok : Option EmailAddress → ParseResult
deriving DecidableEq, Repr

/-- The "plain email address" branch at the end of `EmailAddress::parse`. -/
def plainParse (s : Str) : Option EmailAddress :=
  match splitOnce '@' s with
  | some (l, d) => some { name := none, address := s, domain := d, local_part := l }
  | none => none

/-- Models `EmailAddress::parse` (src/types.rs).  The slice
`s[start+1..end]` panics in Rust when `start + 1 > end`; that case is
modelled as `ParseResult.panic`. -/
def EmailAddress.parse (s0 : Str) : ParseResult :=
  let s := trim s0
  match findSub ['<'] s, findSub ['>'] s with
  | some start, some e =>
      if e < start + 1 then .panic
      else
        let name_part := trimMatchesChar '"' (trim (s.take start))
        let address := trim ((s.drop (start + 1)).take (e - (start + 1)))
        match splitOnce '@' address with
        | some (l, d) =>
            .ok (some { name := if name_part = [] then none
                                else some (PersonName.parse name_part),
                        address := address, domain := d, local_part := l })
        | none => .ok (plainParse s)
  | _, _ => .ok (plainParse s)

/- ---------- types.rs: Subject ---------- -/

structure Subject where
  original : Str
  normalized : Str
  reply_depth : Nat
  is_forward : Bool
  language : Option Str
deriving DecidableEq, Repr

/-- Models Rust `u32::from_str` (optional leading `+`, decimal digits,
value below `2^32`). -/
def parseU32 (s : Str) : Option Nat :=
  let digits := match s with
    | '+' :: rest => rest
    | _ => s
  if digits = [] then none
  else if digits.all Char.isDigit then
    let v := digits.foldl (fun a c => a * 10 + (c.toNat - 48)) 0
    if v < 2 ^ 32 then some v else none
  else none

/-- The `Re:`/`Re[N]:` stripping loop of `Subject::parse` (src/types.rs).
The fuel is an upper bound on iterations; every iteration removes at least
three characters, so `s.length + 1` is always enough. -/
def replyLoop : Nat → Str → Nat → Str × Nat
  | 0, s, d => (s, d)
  | fuel + 1, s, d =>
      let lower := toLowerStr s
      if (str "re:").isPrefixOf lower then
        replyLoop fuel (ltrim (s.drop 3)) (d + 1)
      else if (str "re[").isPrefixOf lower then
        match findSub (str "]:") s with
        | some e =>
            let d' := match parseU32 ((s.drop 3).take (e - 3)) with
              | some c => d + c
              | none => d
            replyLoop fuel (ltrim (s.drop (e + 2))) d'
        | none => (s, d)
      else (s, d)

/-- The forward-marker character class used by `Subject::parse`. -/
def fwdChar (c : Char) : Bool :=
  c == 'F' || c == 'f' || c == 'w' || c == 'W' || c == 'd' || c == 'D' || c == ':'

/-- Models `Subject::parse` (src/types.rs). -/
def Subject.parse (s : Str) : Subject :=
  let r := replyLoop (s.length + 1) s 0
  let n1 := r.1
  let lower := toLowerStr n1
  if (str "fwd:").isPrefixOf lower || (str "fw:").isPrefixOf lower then
    { original := s, normalized := ltrim (n1.dropWhile fwdChar),
      reply_depth := r.2, is_forward := true, language := none }
  else
    { original := s, normalized := n1,
      reply_depth := r.2, is_forward := false, language := none }

/- ---------- parser.rs: separate_signature ---------- -/

/-- The ordered delimiter list of `separate_signature` (src/parser.rs). -/
def sigDelimiters : List Str :=
  [str "--\n", str "-- \n", str "---\n",
   str "Best regards", str "Kind regards", str "Regards,"]

/-- The delimiter-priority loop of `separate_signature`. -/
def sepSigGo (text : Str) : List Str → Str × Option Str
  | [] => (text, none)
  | d :: ds =>
      match findSub d text with
      | some pos =>
          let content := trim (text.take pos)
          let signature := trim (text.drop pos)
          if signature = [] then sepSigGo text ds else (content, some signature)
      | none => sepSigGo text ds

/-- Models `separate_signature` (src/parser.rs). -/
def separate_signature (text : Str) : Str × Option Str :=
  sepSigGo text sigDelimiters

/- ---------- extracted.rs: UTF-8 byte offsets ---------- -/

/-- Byte length of the UTF-8 encoding of a character sequence
(Rust `str::len`). -/
def utf8Len : Str → Nat
  | [] => 0
  | c :: cs => c.utf8Size + utf8Len cs

/-- Models Rust `str::is_char_boundary` on byte index `i` (false past the
end of the string, true at 0 and at the total byte length). -/
def isCharBoundary : Str → Nat → Bool
  | _, 0 => true
  | [], _ + 1 => false
  | c :: cs, i + 1 =>
      if i + 1 < c.utf8Size then false else isCharBoundary cs (i + 1 - c.utf8Size)

/-- The decrement loop of `snap_to_char_boundary` (src/extracted.rs):
walk backwards until a boundary (or 0) is reached. -/
def snapLoop (s : Str) : Nat → Nat
  | 0 => 0
  | i + 1 => if isCharBoundary s (i + 1) then i + 1 else snapLoop s i

/-- Models `snap_to_char_boundary` (src/extracted.rs). -/
def snap_to_char_boundary (s : Str) (idx : Nat) : Nat :=
  if utf8Len s ≤ idx then utf8Len s else snapLoop s idx

/-- Byte offset of the character index `ci` (offset of `s[..ci]`'s end). -/
def charToByte (s : Str) (ci : Nat) : Nat := utf8Len (s.take ci)

/-- Drop the characters covered by the first `n` bytes (meaningful when `n`
is a character boundary). -/
def dropBytes : Str → Nat → Str
  | s, 0 => s
  | [], _ + 1 => []
  | c :: cs, n + 1 => dropBytes cs (n + 1 - c.utf8Size)

/-- Take the characters covered by the first `n` bytes (meaningful when `n`
is a character boundary). -/
def takeBytes : Str → Nat → Str
  | _, 0 => []
  | [], _ + 1 => []
  | c :: cs, n + 1 => c :: takeBytes cs (n + 1 - c.utf8Size)

/-- The byte slice `s[a..b]`, as the characters it covers. -/
def byteSlice (s : Str) (a b : Nat) : Str := takeBytes (dropBytes s a) (b - a)

/- ---------- extracted.rs: the regex patterns ---------- -/

/-- Syntax of the fixed patterns used by src/extracted.rs.  All repetition
in those patterns is over single-character classes, which this grammar
captures exactly. -/
inductive Rx where
  | strLit : Str → Rx
  | cls : (Char → Bool) → Rx
  | seq : Rx → Rx → Rx
  | alt : Rx → Rx → Rx
  | opt : Rx → Rx
  | rep : (Char → Bool) → Nat → Option Nat → Rx

/-- Length of the maximal run of `pr`-characters starting at `p`. -/
def maxRun (s : Str) (pr : Char → Bool) (p : Nat) : Nat :=
  ((s.drop p).takeWhile pr).length

/-- All end positions of a match of `re` starting at `p`, in the
backtracking preference order of leftmost-first (Perl-style) semantics:
greedy repetitions longest-first, alternatives and optionals left/present
first.  This is the match preference order of the Rust `regex` crate. -/
def matchEnds (s : Str) : Rx → Nat → List Nat
  | .strLit l, p => if l.isPrefixOf (s.drop p) then [p + l.length] else []
  | .cls pr, p =>
      match (s.drop p).head? with
      | some c => if pr c then [p + 1] else []
      | none => []
  | .seq a b, p => (matchEnds s a p).flatMap (matchEnds s b)
  | .alt a b, p => matchEnds s a p ++ matchEnds s b p
  | .opt a, p => matchEnds s a p ++ [p]
  | .rep pr lo hi, p =>
      let r := match hi with
        | some h => min (maxRun s pr p) h
        | none => maxRun s pr p
      if r < lo then [] else (List.range (r + 1 - lo)).map (fun k => p + r - k)

/-- The leftmost-first match of `re` at position `p`, if any. -/
def matchAt (s : Str) (re : Rx) (p : Nat) : Option Nat := (matchEnds s re p).head?

/-- The scan loop of `Regex::find_iter`: try each start position left to
right; after a match `[p, e)` resume at `max e (p+1)`.  The fuel bounds the
number of loop steps; since `p` grows by at least one each step,
`s.length + 1` (the number of valid start positions) is always enough. -/
def findIterGo (s : Str) (re : Rx) : Nat → Nat → List (Nat × Nat)
  | 0, _ => []
  | fuel + 1, p =>
      if s.length < p then []
      else
        match matchAt s re p with
        | some e => (p, e) :: findIterGo s re fuel (max e (p + 1))
        | none => findIterGo s re fuel (p + 1)

/-- Models `Regex::find_iter` (and the positions of `captures_iter`):
successive non-overlapping leftmost matches. -/
def findIter (s : Str) (re : Rx) : List (Nat × Nat) :=
  findIterGo s re (s.length + 1) 0

def isAsciiAlpha (c : Char) : Bool :=
  ('a' ≤ c && c ≤ 'z') || ('A' ≤ c && c ≤ 'Z')

def isAsciiAlphanum (c : Char) : Bool := isAsciiAlpha c || c.isDigit

/-- `EMAIL_REGEX`: `[a-zA-Z0-9._%+-]+@[a-zA-Z0-9.-]+\.[a-zA-Z]{2,}`. -/
def emailRx : Rx :=
  .seq (.rep (fun c => isAsciiAlphanum c || c == '.' || c == '_' || c == '%'
                || c == '+' || c == '-') 1 none)
    (.seq (.strLit ['@'])
      (.seq (.rep (fun c => isAsciiAlphanum c || c == '.' || c == '-') 1 none)
        (.seq (.strLit ['.']) (.rep isAsciiAlpha 2 none))))

/-- The separator class `[-.\s]` of `PHONE_REGEX`. -/
def phoneSep (c : Char) : Bool := c == '-' || c == '.' || isWs c

/-- `PHONE_REGEX`:
`(?:\+?1[-.\s]?)?(?:\(?\d{3}\)?[-.\s]?)?\d{3}[-.\s]?\d{4}`
(`\d` modelled as ASCII digits). -/
def phoneRx : Rx :=
  .seq (.opt (.seq (.opt (.strLit ['+']))
               (.seq (.strLit ['1']) (.opt (.cls phoneSep)))))
    (.seq (.opt (.seq (.opt (.strLit ['(']))
                  (.seq (.rep Char.isDigit 3 (some 3))
                    (.seq (.opt (.strLit [')'])) (.opt (.cls phoneSep))))))
      (.seq (.rep Char.isDigit 3 (some 3))
        (.seq (.opt (.cls phoneSep)) (.rep Char.isDigit 4 (some 4)))))

/-- The negated class `[^\s<>\[\]{}|\\^]` of `URL_REGEX` (the excluded
braces and backslash are written by code point). -/
def urlChar (c : Char) : Bool :=
  !(isWs c || c == '<' || c == '>' || c == '[' || c == ']'
    || c.toNat == 123 || c.toNat == 125 || c == '|' || c.toNat == 92 || c == '^')

/-- `URL_REGEX`: `https?://[^\s<>\[\]{}|\\^]+`. -/
def urlRx : Rx :=
  .seq (.strLit (str "http"))
    (.seq (.opt (.strLit ['s'])) (.seq (.strLit (str "://")) (.rep urlChar 1 none)))

def isDigitComma (c : Char) : Bool := c.isDigit || c == ','

def currencySym (c : Char) : Bool := c == '$' || c == '€' || c == '£' || c == '¥'

/-- `AMOUNT_REGEX`:
`(?:[$€£¥])\s*[\d,]+(?:\.\d{2})?|[\d,]+(?:\.\d{2})?\s*(?:USD|EUR|GBP|CAD|AUD)`. -/
def amountRx : Rx :=
  .alt
    (.seq (.cls currencySym)
      (.seq (.rep isWs 0 none)
        (.seq (.rep isDigitComma 1 none)
          (.opt (.seq (.strLit ['.']) (.rep Char.isDigit 2 (some 2)))))))
    (.seq (.rep isDigitComma 1 none)
      (.seq (.opt (.seq (.strLit ['.']) (.rep Char.isDigit 2 (some 2))))
        (.seq (.rep isWs 0 none)
          (.alt (.strLit (str "USD"))
            (.alt (.strLit (str "EUR"))
              (.alt (.strLit (str "GBP"))
                (.alt (.strLit (str "CAD")) (.strLit (str "AUD")))))))))

def isWordChar (c : Char) : Bool := isAsciiAlphanum c || c == '_'

/-- `TWITTER_REGEX`: `@([a-zA-Z0-9_]{1,15})`. -/
def twitterRx : Rx := .seq (.strLit ['@']) (.rep isWordChar 1 (some 15))

/-- `LINKEDIN_REGEX`: `linkedin\.com/in/([a-zA-Z0-9-]+)`. -/
def linkedinRx : Rx :=
  .seq (.strLit (str "linkedin.com/in/"))
    (.rep (fun c => isAsciiAlphanum c || c == '-') 1 none)

/- ---------- extracted.rs: data model ---------- -/

structure ExtractedEmail where
  address : Str
  context : Str
  position : Nat
deriving DecidableEq, Repr

inductive PhoneType where
  | Mobile | Landline | TollFree | Unknown
deriving DecidableEq, Repr

structure PhoneNumber where
  raw : Str
  normalized : Str
  phone_type : PhoneType
  country_code : Option Str
deriving DecidableEq, Repr

inductive UrlType where
  | Website | SocialMedia | Unsubscribe | Tracking | Calendar | Document | Other
deriving DecidableEq, Repr

structure ExtractedUrl where
  url : Str
  domain : Str
  is_tracking : Bool
  url_type : UrlType
deriving DecidableEq, Repr

/-- `MonetaryAmount`; the Rust `f64` value is modelled as an exact
rational (no claim inspects rounding). -/
structure MonetaryAmount where
  raw : Str
  value : ℚ
  currency : Str
deriving DecidableEq, Repr

inductive SocialPlatform where
  | Twitter | LinkedIn | Instagram | Facebook | GitHub
  | Other : Str → SocialPlatform
deriving DecidableEq, Repr

structure SocialHandle where
  platform : SocialPlatform
  handle : Str
deriving DecidableEq, Repr

structure ExtractedEntities where
  emails : List ExtractedEmail
  phone_numbers : List PhoneNumber
  urls : List ExtractedUrl
  names : List Str
  companies : List Str
  dates : List Str
  amounts : List MonetaryAmount
  addresses : List Str
  social_handles : List SocialHandle
deriving DecidableEq, Repr

/- ---------- extracted.rs: helper functions ---------- -/

/-- Models `normalize_phone` (src/extracted.rs). -/
def normalize_phone (phone : Str) : Str :=
  phone.filter (fun c => c.isDigit || c == '+')

/-- Models `detect_phone_type` (src/extracted.rs). -/
def detect_phone_type (normalized : Str) : PhoneType :=
  let digits := normalized.filter Char.isDigit
  if (str "1800").isPrefixOf digits || (str "1888").isPrefixOf digits
      || (str "1877").isPrefixOf digits then
    PhoneType.TollFree
  else
    PhoneType.Unknown

/-- Models Rust `str::trim_start_matches(pat)` with a string pattern:
repeatedly remove the prefix `pat`.  Fueled; `s.length` rounds always
suffice for a non-empty pattern. -/
def trimStartMatchesSub : Nat → Str → Str → Str
  | 0, _, s => s
  | fuel + 1, pat, s =>
      if pat ≠ [] ∧ pat.isPrefixOf s then
        trimStartMatchesSub fuel pat (s.drop pat.length)
      else s

/-- Models `extract_domain` (src/extracted.rs). -/
def extract_domain (url : Str) : Str :=
  let u1 := trimStartMatchesSub (url.length + 1) (str "https://") url
  let u2 := trimStartMatchesSub (u1.length + 1) (str "http://") u1
  u2.takeWhile (· ≠ '/')

/-- Models `is_tracking_url` (src/extracted.rs). -/
def is_tracking_url (url : Str) : Bool :=
  let lower := toLowerStr url
  containsSub (str "track") lower || containsSub (str "click") lower
    || containsSub (str "redirect") lower || containsSub (str "utm_") lower
    || containsSub (str "mc_eid") lower || containsSub (str "trk") lower

/-- Models `detect_url_type` (src/extracted.rs). -/
def detect_url_type (url domain : Str) : UrlType :=
  let lower := toLowerStr url
  let domain_lower := toLowerStr domain
  if containsSub (str "unsubscribe") lower || containsSub (str "optout") lower then
    UrlType.Unsubscribe
  else if is_tracking_url url then
    UrlType.Tracking
  else if containsSub (str "linkedin") domain_lower
      || containsSub (str "twitter") domain_lower
      || containsSub (str "facebook") domain_lower
      || containsSub (str "instagram") domain_lower then
    UrlType.SocialMedia
  else if containsSub (str "calendar") lower || containsSub (str ".ics") lower then
    UrlType.Calendar
  else if endsWithSub (str ".pdf") lower || endsWithSub (str ".doc") lower
      || endsWithSub (str ".docx") lower || endsWithSub (str ".xls") lower then
    UrlType.Document
  else
    UrlType.Website

def digitsToNat (l : Str) : Nat := l.foldl (fun a c => a * 10 + (c.toNat - 48)) 0

/-- Success predicate of Rust `"...".parse::<f64>()` on a string made only
of ASCII digits and dots: at least one digit, at most one dot. -/
def parsesAsFloat (clean : Str) : Bool :=
  (clean.any Char.isDigit) && (clean.count '.' ≤ 1)

/-- Exact value of such a digits-and-one-dot string. -/
def floatValue (clean : Str) : ℚ :=
  let ip := clean.takeWhile (· ≠ '.')
  let fp := (clean.dropWhile (· ≠ '.')).drop 1
  (digitsToNat ip : ℚ) + (digitsToNat fp : ℚ) / 10 ^ fp.length

/-- Models `parse_amount` (src/extracted.rs). -/
def parse_amount (raw : Str) : Option MonetaryAmount :=
  let clean0 := raw.filter (fun c => c.isDigit || c == '.' || c == ',')
  let clean := clean0.filter (· ≠ ',')
  if parsesAsFloat clean then
    let currency :=
      if raw.contains '$' || containsSub (str "USD") raw then str "USD"
      else if raw.contains '€' || containsSub (str "EUR") raw then str "EUR"
      else if raw.contains '£' || containsSub (str "GBP") raw then str "GBP"
      else str "USD"
    some { raw := raw, value := floatValue clean, currency := currency }
  else none

/- ---------- extracted.rs: ExtractedEntities::extract ---------- -/

def emailMatches (t : Str) : List (Nat × Nat) := findIter t emailRx
def phoneMatches (t : Str) : List (Nat × Nat) := findIter t phoneRx
def urlMatches (t : Str) : List (Nat × Nat) := findIter t urlRx
def amountMatches (t : Str) : List (Nat × Nat) := findIter t amountRx
def twitterMatches (t : Str) : List (Nat × Nat) := findIter t twitterRx
def linkedinMatches (t : Str) : List (Nat × Nat) := findIter t linkedinRx

/-- The characters of a match (Rust `cap.as_str()`), by char positions. -/
def matchStr (t : Str) (m : Nat × Nat) : Str := (t.drop m.1).take (m.2 - m.1)

/-- One `ExtractedEmail` from one email match: the context window is the
byte slice between `snap_to_char_boundary(start-30)` and
`snap_to_char_boundary(min(end+30, len))`, and `position` is the byte
offset of the match start. -/
def mkExtractedEmail (t : Str) (m : Nat × Nat) : ExtractedEmail :=
  let bs := charToByte t m.1
  let be := charToByte t m.2
  let a := snap_to_char_boundary t (bs - 30)
  let b := snap_to_char_boundary t (min (be + 30) (utf8Len t))
  { address := matchStr t m, context := byteSlice t a b, position := bs }

def mkPhoneNumber (t : Str) (m : Nat × Nat) : PhoneNumber :=
  let raw := matchStr t m
  let normalized := normalize_phone raw
  { raw := raw, normalized := normalized,
    phone_type := detect_phone_type normalized, country_code := none }

def mkExtractedUrl (t : Str) (m : Nat × Nat) : ExtractedUrl :=
  let url := matchStr t m
  let domain := extract_domain url
  { url := url, domain := domain, is_tracking := is_tracking_url url,
    url_type := detect_url_type url domain }

/-- Group-1 capture of a Twitter match (everything after the `@`). -/
def twitterHandle (t : Str) (m : Nat × Nat) : SocialHandle :=
  { platform := SocialPlatform.Twitter,
    handle := (t.drop (m.1 + 1)).take (m.2 - (m.1 + 1)) }

/-- Group-1 capture of a LinkedIn match (everything after the 16-character
literal `linkedin.com/in/`). -/
def linkedinHandle (t : Str) (m : Nat × Nat) : SocialHandle :=
  { platform := SocialPlatform.LinkedIn,
    handle := (t.drop (m.1 + 16)).take (m.2 - (m.1 + 16)) }

/-- Models `ExtractedEntities::extract` (src/extracted.rs). -/
def ExtractedEntities.extract (t : Str) : ExtractedEntities :=
  { emails := (emailMatches t).map (mkExtractedEmail t)
    phone_numbers := (phoneMatches t).map (mkPhoneNumber t)
    urls := (urlMatches t).map (mkExtractedUrl t)
    names := []
    companies := []
    dates := []
    amounts := (amountMatches t).filterMap (fun m => parse_amount (matchStr t m))
    addresses := []
    social_handles :=
      (twitterMatches t).map (twitterHandle t)
        ++ (linkedinMatches t).map (linkedinHandle t) }

/-- The byte offsets of the matches behind `social_handles`, in the order
the handles are pushed (all Twitter matches, then all LinkedIn matches). -/
def socialMatchStarts (t : Str) : List Nat :=
  (twitterMatches t).map (fun m => charToByte t m.1)
    ++ (linkedinMatches t).map (fun m => charToByte t m.1)

/- ==================== Lemmas and claim theorems ==================== -/

theorem findSubAux_some (pat : Str) :
    ∀ (s : Str) (i p : Nat), findSubAux pat s i = some p →
      i ≤ p ∧ pat.isPrefixOf (s.drop (p - i)) := by
  intro s
  induction s with
  | nil =>
      intro i p h
      unfold findSubAux at h
      split at h
      · cases h
        exact ⟨le_refl _, by simpa using ‹pat.isPrefixOf ([] : Str)›⟩
      · cases h
  | cons c rest ih =>
      intro i p h
      unfold findSubAux at h
      split at h
      · cases h
        simpa using ‹pat.isPrefixOf (c :: rest)›
      · obtain ⟨hle, hpre⟩ := ih (i + 1) p h
        refine ⟨by omega, ?_⟩
        have hpi : p - i = (p - (i + 1)) + 1 := by omega
        rw [hpi]
        simpa using hpre

theorem findSub_isPrefixOf {pat s : Str} {p : Nat} (h : findSub pat s = some p) :
    pat.isPrefixOf (s.drop p) := by
  have := findSubAux_some pat s 0 p h
  simpa using this.2

theorem splitOnce_eq {c : Char} {s l r : Str} (h : splitOnce c s = some (l, r)) :
    s = l ++ c :: r := by
  unfold splitOnce at h
  cases hf : findSub [c] s with
  | none => rw [hf] at h; cases h
  | some i =>
      rw [hf] at h
      cases h
      have hpre := findSub_isPrefixOf hf
      rw [List.isPrefixOf_iff_prefix] at hpre
      obtain ⟨t, ht⟩ := hpre
      have hdrop : s.drop (i + 1) = t := by
        have h1 : s.drop (i + 1) = (s.drop i).drop 1 := by
          rw [List.drop_drop]
        rw [h1, ← ht]
        simp
      calc s = s.take i ++ s.drop i := (List.take_append_drop i s).symm
    _ = s.take i ++ c :: s.drop (i + 1) := by rw [← ht, hdrop]; rfl

theorem plainParse_invariant {s : Str} {a : EmailAddress}
    (h : plainParse s = some a) :
    a.address = a.local_part ++ '@' :: a.domain := by
  unfold plainParse at h
  cases hs : splitOnce '@' s with
  | none => rw [hs] at h; cases h
  | some lr =>
      obtain ⟨l, r⟩ := lr
      rw [hs] at h
      cases h
      simpa using splitOnce_eq hs

/-- C2: whenever `EmailAddress::parse` returns an address, its `address`
field is exactly `local_part ++ "@" ++ domain`. -/
theorem C2_address_invariant (s : Str) (a : EmailAddress)
    (h : EmailAddress.parse s = .ok (some a)) :
    a.address = a.local_part ++ '@' :: a.domain := by
  simp only [EmailAddress.parse] at h
  split at h
  · split at h
    · cases h
    · split at h
      · rename_i l d hsp
        cases h
        simpa using splitOnce_eq hsp
      · injection h with h
        exact plainParse_invariant h
  · injection h with h
    exact plainParse_invariant h

/-- Witness for C2 at the concrete input `"a@b"`. -/
theorem C2_address_invariant_witness :
    EmailAddress.parse (str "a@b") =
      .ok (some { name := none, address := str "a@b",
                  domain := str "b", local_part := str "a" }) ∧
    str "a@b" = str "a" ++ '@' :: str "b" :=
  ⟨by decide,
   C2_address_invariant (str "a@b")
     { name := none, address := str "a@b", domain := str "b", local_part := str "a" }
     (by decide)⟩

/-- C4 (amended): when the text between the first `<` and the first `>`
contains no `@`, `EmailAddress::parse` falls through to the plain branch,
splitting the whole trimmed string on its first `@` (it does not
unconditionally fail). -/
theorem C4_bracket_fallthrough (s : Str) (i j : Nat)
    (h1 : findSub ['<'] (trim s) = some i)
    (h2 : findSub ['>'] (trim s) = some j)
    (h3 : i + 1 ≤ j)
    (h4 : splitOnce '@' (trim (((trim s).drop (i + 1)).take (j - (i + 1)))) = none) :
    EmailAddress.parse s = .ok (plainParse (trim s)) := by
  simp only [EmailAddress.parse, h1, h2]
  rw [if_neg (by omega)]
  simp [h4]

/-- Witness for the amended C4 at `"a@b <x>"`. -/
theorem C4_bracket_fallthrough_witness :
    EmailAddress.parse (str "a@b <x>") = .ok (plainParse (trim (str "a@b <x>"))) :=
  C4_bracket_fallthrough (str "a@b <x>") 4 6 (by decide) (by decide)
    (by decide) (by decide)

/-- C4 counterexample: `"a@b <x>"` has `<` and `>` with no `@` between
them, yet parsing succeeds (via the plain branch) instead of returning
`None` as the claim states. -/
theorem C4_bracket_counterexample :
    findSub ['<'] (trim (str "a@b <x>")) = some 4 ∧
    findSub ['>'] (trim (str "a@b <x>")) = some 6 ∧
    containsSub ['@'] (((trim (str "a@b <x>")).drop 5).take 1) = false ∧
    EmailAddress.parse (str "a@b <x>") ≠ .ok none := by decide

/-- C10: at the failing input `">a<"` (first `>` before first `<`),
`EmailAddress::parse` hits the slice `s[start+1..end]` with
`start + 1 = 3 > 0 = end` and panics instead of returning a value. -/
theorem C10_parse_panics : EmailAddress.parse (str ">a<") = ParseResult.panic := by
  decide

/-- C5: `Subject::parse "Re[3]: Re: Topic"` yields reply depth 4
(3 from `Re[3]:` plus 1 from `Re:`), normalized `"Topic"`, original
untouched. -/
theorem C5_subject_re3 :
    Subject.parse (str "Re[3]: Re: Topic") =
      { original := str "Re[3]: Re: Topic", normalized := str "Topic",
        reply_depth := 4, is_forward := false, language := none } := by
  decide

/-- C6: `Subject::parse "Fwd: Re: X"` yields reply depth 0, the forward
flag set, and normalized `"Re: X"`: the reply loop exits on `Fwd:` and the
single forward check strips the leading `{f,F,w,W,d,D,:}` characters plus
whitespace. -/
theorem C6_subject_fwd_re :
    Subject.parse (str "Fwd: Re: X") =
      { original := str "Fwd: Re: X", normalized := str "Re: X",
        reply_depth := 0, is_forward := true, language := none } := by
  decide

/-- C9: `detect_url_type` is strictly priority-ordered, first match wins:
Unsubscribe → Tracking → SocialMedia → Calendar → Document → Website.
In particular a URL matching the unsubscribe rule classifies as
Unsubscribe no matter what other rules (e.g. tracking) also match. -/
theorem C9_url_type_priority (url domain : Str) :
    ((containsSub (str "unsubscribe") (toLowerStr url)
        || containsSub (str "optout") (toLowerStr url)) = true →
      detect_url_type url domain = UrlType.Unsubscribe) ∧
    ((containsSub (str "unsubscribe") (toLowerStr url)
        || containsSub (str "optout") (toLowerStr url)) = false →
      is_tracking_url url = true →
      detect_url_type url domain = UrlType.Tracking) ∧
    ((containsSub (str "unsubscribe") (toLowerStr url)
        || containsSub (str "optout") (toLowerStr url)) = false →
      is_tracking_url url = false →
      (containsSub (str "linkedin") (toLowerStr domain)
        || containsSub (str "twitter") (toLowerStr domain)
        || containsSub (str "facebook") (toLowerStr domain)
        || containsSub (str "instagram") (toLowerStr domain)) = true →
      detect_url_type url domain = UrlType.SocialMedia) ∧
    ((containsSub (str "unsubscribe") (toLowerStr url)
        || containsSub (str "optout") (toLowerStr url)) = false →
      is_tracking_url url = false →
      (containsSub (str "linkedin") (toLowerStr domain)
        || containsSub (str "twitter") (toLowerStr domain)
        || containsSub (str "facebook") (toLowerStr domain)
        || containsSub (str "instagram") (toLowerStr domain)) = false →
      (containsSub (str "calendar") (toLowerStr url)
        || containsSub (str ".ics") (toLowerStr url)) = true →
      detect_url_type url domain = UrlType.Calendar) ∧
    ((containsSub (str "unsubscribe") (toLowerStr url)
        || containsSub (str "optout") (toLowerStr url)) = false →
      is_tracking_url url = false →
      (containsSub (str "linkedin") (toLowerStr domain)
        || containsSub (str "twitter") (toLowerStr domain)
        || containsSub (str "facebook") (toLowerStr domain)
        || containsSub (str "instagram") (toLowerStr domain)) = false →
      (containsSub (str "calendar") (toLowerStr url)
        || containsSub (str ".ics") (toLowerStr url)) = false →
      (endsWithSub (str ".pdf") (toLowerStr url)
        || endsWithSub (str ".doc") (toLowerStr url)
        || endsWithSub (str ".docx") (toLowerStr url)
        || endsWithSub (str ".xls") (toLowerStr url)) = true →
      detect_url_type url domain = UrlType.Document) ∧
    ((containsSub (str "unsubscribe") (toLowerStr url)
        || containsSub (str "optout") (toLowerStr url)) = false →
      is_tracking_url url = false →
      (containsSub (str "linkedin") (toLowerStr domain)
        || containsSub (str "twitter") (toLowerStr domain)
        || containsSub (str "facebook") (toLowerStr domain)
        || containsSub (str "instagram") (toLowerStr domain)) = false →
      (containsSub (str "calendar") (toLowerStr url)
        || containsSub (str ".ics") (toLowerStr url)) = false →
      (endsWithSub (str ".pdf") (toLowerStr url)
        || endsWithSub (str ".doc") (toLowerStr url)
        || endsWithSub (str ".docx") (toLowerStr url)
        || endsWithSub (str ".xls") (toLowerStr url)) = false →
      detect_url_type url domain = UrlType.Website) := by
  refine ⟨?_, ?_, ?_, ?_, ?_, ?_⟩
  · intro h1; simp [detect_url_type, h1]
  · intro h1 h2; simp [detect_url_type, h1, h2]
  · intro h1 h2 h3; simp [detect_url_type, h1, h2, h3]
  · intro h1 h2 h3 h4; simp [detect_url_type, h1, h2, h3, h4]
  · intro h1 h2 h3 h4 h5; simp [detect_url_type, h1, h2, h3, h4, h5]
  · intro h1 h2 h3 h4 h5; simp [detect_url_type, h1, h2, h3, h4, h5]

/-- Witness for C9: a URL containing both `unsubscribe` and a tracking
keyword classifies as Unsubscribe, not Tracking. -/
theorem C9_url_type_priority_witness :
    is_tracking_url (str "https://x.com/unsubscribe?utm_a") = true ∧
    detect_url_type (str "https://x.com/unsubscribe?utm_a") (str "x.com")
      = UrlType.Unsubscribe :=
  ⟨by decide,
   (C9_url_type_priority (str "https://x.com/unsubscribe?utm_a") (str "x.com")).1
     (by decide)⟩

/- ---------- whitespace decomposition lemmas ---------- -/

theorem ltrim_eq_nil_iff (s : Str) : ltrim s = [] ↔ s.all isWs = true := by
  simp [ltrim, List.dropWhile_eq_nil_iff, List.all_eq_true]

theorem rtrim_eq_nil_iff (s : Str) : rtrim s = [] ↔ s.all isWs = true := by
  simp [rtrim, List.dropWhile_eq_nil_iff, List.all_eq_true]

theorem exists_ltrim_decomp (s : Str) :
    ∃ w, w.all isWs = true ∧ s = w ++ ltrim s := by
  refine ⟨s.takeWhile isWs, ?_, (List.takeWhile_append_dropWhile isWs s).symm⟩
  simp only [List.all_eq_true]
  exact fun x hx => List.mem_takeWhile_imp hx

theorem exists_rtrim_decomp (s : Str) :
    ∃ w, w.all isWs = true ∧ s = rtrim s ++ w := by
  refine ⟨(s.reverse.takeWhile isWs).reverse, ?_, ?_⟩
  · simp only [List.all_reverse, List.all_eq_true]
    exact fun x hx => List.mem_takeWhile_imp hx
  · rw [rtrim, ← List.reverse_append, List.takeWhile_append_dropWhile,
      List.reverse_reverse]

theorem ltrim_append_allws {u : Str} (v : Str) (h : u.all isWs = true) :
    ltrim (u ++ v) = ltrim v := by
  have hu : List.dropWhile isWs u = [] := (ltrim_eq_nil_iff u).mpr h
  simp [ltrim, List.dropWhile_append, hu]

theorem ltrim_append_nonws {u : Str} (v : Str) (h : u.all isWs = false) :
    ltrim (u ++ v) = ltrim u ++ v := by
  have hu : List.dropWhile isWs u ≠ [] := by
    rw [Ne, ← ltrim]
    rw [ltrim_eq_nil_iff]
    simp [h]
  simp [ltrim, List.dropWhile_append, List.isEmpty_iff, hu]

theorem rtrim_append_nonws {v : Str} (u : Str) (h : v.all isWs = false) :
    rtrim (u ++ v) = u ++ rtrim v := by
  have hv : v.reverse.all isWs = false := by simpa [List.all_reverse] using h
  rw [rtrim, List.reverse_append, ← ltrim, ltrim_append_nonws _ hv,
    List.reverse_append, List.reverse_reverse, ltrim, rtrim]

theorem ltrim_all_false {s : Str} (h : s.all isWs = false) :
    (ltrim s).all isWs = false := by
  obtain ⟨w, hw, hdec⟩ := exists_ltrim_decomp s
  by_contra hc
  have hc' : (ltrim s).all isWs = true := by
    cases hall : (ltrim s).all isWs
    · exact absurd hall hc
    · rfl
  rw [hdec, List.all_append, hw, hc'] at h
  cases h

theorem trim_eq_nil_iff (s : Str) : trim s = [] ↔ s.all isWs = true := by
  rw [trim, rtrim_eq_nil_iff]
  constructor
  · intro h
    obtain ⟨w, hw, hdec⟩ := exists_ltrim_decomp s
    rw [hdec, List.all_append, hw, h]
    rfl
  · intro h
    rw [(ltrim_eq_nil_iff s).mpr h]
    rfl

/-- Trimming a concatenation whose right part holds a non-whitespace
character loses only whitespace at the junction:
`trim (u ++ v) = trim u ++ w ++ trim v` for some all-whitespace `w`. -/
theorem trim_append_decomp (u v : Str) (hv : v.all isWs = false) :
    ∃ w, w.all isWs = true ∧ trim (u ++ v) = trim u ++ w ++ trim v := by
  cases hu : u.all isWs
  · have h2 : trim (u ++ v) = ltrim u ++ rtrim v := by
      rw [trim, ltrim_append_nonws v hu, rtrim_append_nonws _ hv]
    obtain ⟨w1, hw1, hdec1⟩ := exists_rtrim_decomp (ltrim u)
    obtain ⟨w2, hw2, hdec2⟩ := exists_ltrim_decomp v
    have h3 : rtrim v = w2 ++ trim v := by
      conv_lhs => rw [hdec2]
      rw [rtrim_append_nonws _ (ltrim_all_false hv)]
      rfl
    refine ⟨w1 ++ w2, by simp [List.all_append, hw1, hw2], ?_⟩
    rw [h2, h3]
    conv_lhs => rw [hdec1]
    simp [trim, List.append_assoc]
  · have h1 : ltrim (u ++ v) = ltrim v := ltrim_append_allws v hu
    have h2 : trim u = [] := by
      rw [trim_eq_nil_iff]
      exact hu
    exact ⟨[], rfl, by rw [trim, h1, h2]; simp [trim]⟩

theorem sepSigGo_some_decomp :
    ∀ (ds : List Str) (t c g : Str), sepSigGo t ds = (c, some g) →
      ∃ w, w.all isWs = true ∧ trim t = c ++ w ++ g := by
  intro ds
  induction ds with
  | nil =>
      intro t c g h
      simp [sepSigGo] at h
  | cons d rest ih =>
      intro t c g h
      unfold sepSigGo at h
      cases hf : findSub d t with
      | none =>
          rw [hf] at h
          exact ih t c g h
      | some pos =>
          rw [hf] at h
          simp only at h
          split at h
          · exact ih t c g h
          · rename_i hne
            have hc : trim (t.take pos) = c := congrArg Prod.fst h
            have hg : trim (t.drop pos) = g := by
              have := congrArg Prod.snd h
              simpa using this
            have hv : (t.drop pos).all isWs = false := by
              cases hall : (t.drop pos).all isWs
              · rfl
              · exact absurd ((trim_eq_nil_iff _).mpr hall) (hg ▸ hne)
            obtain ⟨w, hw, hdec⟩ := trim_append_decomp (t.take pos) (t.drop pos) hv
            rw [List.take_append_drop] at hdec
            exact ⟨w, hw, by rw [hdec, hc, hg]⟩

theorem sepSigGo_none_id :
    ∀ (ds : List Str) (t c : Str), sepSigGo t ds = (c, none) → c = t := by
  intro ds
  induction ds with
  | nil =>
      intro t c h
      simpa [sepSigGo] using (congrArg Prod.fst h).symm
  | cons d rest ih =>
      intro t c h
      unfold sepSigGo at h
      cases hf : findSub d t with
      | none =>
          rw [hf] at h
          exact ih t c h
      | some pos =>
          rw [hf] at h
          simp only at h
          split at h
          · exact ih t c h
          · exact absurd (congrArg Prod.snd h) (by simp)

/-- C3 (amended): when a signature is found, the trimmed source text is the
content, a run of whitespace lost at the junction, then the signature; the
exact concatenation `content ++ signature` does not reconstruct the source.
When no signature is found, the content is the whole text. -/
theorem C3_roundtrip_amended (t : Str) :
    (∀ c g, separate_signature t = (c, some g) →
       ∃ w, w.all isWs = true ∧ trim t = c ++ w ++ g) ∧
    (∀ c, separate_signature t = (c, none) → c = t) :=
  ⟨fun c g h => sepSigGo_some_decomp sigDelimiters t c g h,
   fun c h => sepSigGo_none_id sigDelimiters t c h⟩

/-- Witness for the amended C3 at `"Hello.\n\n--\nJohn"`. -/
theorem C3_roundtrip_amended_witness :
    ∃ w, w.all isWs = true ∧
      trim (str "Hello.\n\n--\nJohn") = str "Hello." ++ w ++ str "--\nJohn" :=
  (C3_roundtrip_amended (str "Hello.\n\n--\nJohn")).1
    (str "Hello.") (str "--\nJohn") (by decide)

/-- C3 counterexample: on `"Hello.\n\n--\nJohn"` the separator yields
content `"Hello."` and signature `"--\nJohn"`, but their concatenation does
not reconstruct the source text, trimmed or not: the interior `"\n\n"` is
lost. -/
theorem C3_roundtrip_counterexample :
    separate_signature (str "Hello.\n\n--\nJohn")
        = (str "Hello.", some (str "--\nJohn")) ∧
    str "Hello." ++ str "--\nJohn" ≠ str "Hello.\n\n--\nJohn" ∧
    trim (str "Hello." ++ str "--\nJohn") ≠ trim (str "Hello.\n\n--\nJohn") := by
  decide

/-- C7: the delimiter search is ordered by list priority; whenever the
first-priority delimiter `"--\n"` occurs anywhere in the text, the split
happens at its first occurrence, regardless of where later-listed
delimiters occur. -/
theorem C7_delimiter_priority (t : Str) (p : Nat)
    (h : findSub (str "--\n") t = some p) :
    separate_signature t = (trim (t.take p), some (trim (t.drop p))) := by
  have hpre := findSub_isPrefixOf h
  rw [List.isPrefixOf_iff_prefix] at hpre
  obtain ⟨tail, htail⟩ := hpre
  have hne : trim (t.drop p) ≠ [] := by
    rw [Ne, trim_eq_nil_iff, ← htail]
    intro hall
    rw [List.all_append, Bool.and_eq_true] at hall
    exact absurd hall.1 (by decide)
  simp only [separate_signature, sigDelimiters, sepSigGo, h]
  rw [if_neg hne]

/-- Witness for C7 at `"Hello there.\n\n--\nJohn Doe\nAcme Corp"`: the
`"--\n"` delimiter (first occurrence, position 14) wins, the content is
`"Hello there."` and the signature starts with `"--"`. -/
theorem C7_delimiter_priority_witness :
    separate_signature (str "Hello there.\n\n--\nJohn Doe\nAcme Corp")
        = (str "Hello there.", some (str "--\nJohn Doe\nAcme Corp")) ∧
    (str "--").isPrefixOf (str "--\nJohn Doe\nAcme Corp") = true := by
  constructor
  · rw [C7_delimiter_priority (str "Hello there.\n\n--\nJohn Doe\nAcme Corp") 14
      (by decide)]
    decide
  · decide

/- ---------- UTF-8 boundary lemmas ---------- -/

theorem isCharBoundary_zero (s : Str) : isCharBoundary s 0 = true := by
  cases s <;> rfl

theorem isCharBoundary_cons (c : Char) (cs : Str) (i : Nat) (h : 0 < i) :
    isCharBoundary (c :: cs) i =
      if i < c.utf8Size then false else isCharBoundary cs (i - c.utf8Size) := by
  obtain ⟨j, rfl⟩ : ∃ j, i = j + 1 := ⟨i - 1, by omega⟩
  rfl

theorem utf8Len_append (u v : Str) : utf8Len (u ++ v) = utf8Len u + utf8Len v := by
  induction u with
  | nil => simp [utf8Len]
  | cons c cs ih => simp [utf8Len, ih]; omega

theorem utf8Len_take_le (s : Str) (k : Nat) : utf8Len (s.take k) ≤ utf8Len s := by
  conv_rhs => rw [← List.take_append_drop k s]
  rw [utf8Len_append]
  omega

theorem isCharBoundary_utf8Len (s : Str) : isCharBoundary s (utf8Len s) = true := by
  induction s with
  | nil => rfl
  | cons c cs ih =>
      show isCharBoundary (c :: cs) (c.utf8Size + utf8Len cs) = true
      rw [isCharBoundary_cons c cs _ (by have := Char.utf8Size_pos c; omega)]
      rw [if_neg (by omega)]
      have h : c.utf8Size + utf8Len cs - c.utf8Size = utf8Len cs := by omega
      rw [h]
      exact ih

theorem isCharBoundary_le {s : Str} {i : Nat} (h : isCharBoundary s i = true) :
    i ≤ utf8Len s := by
  induction s generalizing i with
  | nil =>
      cases i with
      | zero => exact le_refl 0
      | succ j => cases h
  | cons c cs ih =>
      cases i with
      | zero => exact Nat.zero_le _
      | succ j =>
          rw [isCharBoundary_cons c cs _ (Nat.succ_pos j)] at h
          split at h
          · cases h
          · have := ih h
            show j + 1 ≤ c.utf8Size + utf8Len cs
            omega

theorem isCharBoundary_charToByte (s : Str) (ci : Nat) :
    isCharBoundary s (charToByte s ci) = true := by
  induction s generalizing ci with
  | nil => cases ci <;> rfl
  | cons c cs ih =>
      cases ci with
      | zero => exact isCharBoundary_zero _
      | succ j =>
          show isCharBoundary (c :: cs) (utf8Len (c :: cs.take j)) = true
          show isCharBoundary (c :: cs) (c.utf8Size + utf8Len (cs.take j)) = true
          rw [isCharBoundary_cons c cs _ (by have := Char.utf8Size_pos c; omega)]
          rw [if_neg (by omega)]
          have h : c.utf8Size + utf8Len (cs.take j) - c.utf8Size
              = utf8Len (cs.take j) := by omega
          rw [h]
          exact ih j

theorem charToByte_mono (s : Str) {m n : Nat} (h : m ≤ n) :
    charToByte s m ≤ charToByte s n := by
  show utf8Len (s.take m) ≤ utf8Len (s.take n)
  have heq : (s.take n).take m = s.take m := by
    rw [List.take_take, Nat.min_eq_left h]
  rw [← heq]
  exact utf8Len_take_le (s.take n) m

theorem charToByte_le_utf8Len (s : Str) (ci : Nat) : charToByte s ci ≤ utf8Len s :=
  utf8Len_take_le s ci

theorem snapLoop_le (s : Str) (i : Nat) : snapLoop s i ≤ i := by
  induction i with
  | zero => exact le_refl 0
  | succ j ih =>
      unfold snapLoop
      split
      · exact le_refl _
      · exact le_trans ih (by omega)

theorem snapLoop_isBoundary (s : Str) (i : Nat) :
    isCharBoundary s (snapLoop s i) = true := by
  induction i with
  | zero => exact isCharBoundary_zero s
  | succ j ih =>
      unfold snapLoop
      split
      · assumption
      · exact ih

theorem le_snapLoop {s : Str} {b : Nat} (hb : isCharBoundary s b = true) :
    ∀ {i : Nat}, b ≤ i → b ≤ snapLoop s i := by
  intro i
  induction i with
  | zero => intro h; simpa [snapLoop] using h
  | succ j ih =>
      intro hbi
      unfold snapLoop
      split
      · exact hbi
      · rename_i hnb
        have hbj : b ≤ j := by
          rcases Nat.lt_or_ge b (j + 1) with h | h
          · omega
          · have : b = j + 1 := by omega
            rw [this] at hb
            rw [hb] at hnb
            cases hnb rfl
        exact ih hbj

theorem snap_isBoundary (s : Str) (idx : Nat) :
    isCharBoundary s (snap_to_char_boundary s idx) = true := by
  unfold snap_to_char_boundary
  split
  · exact isCharBoundary_utf8Len s
  · exact snapLoop_isBoundary s idx

theorem snap_le_idx (s : Str) (idx : Nat) : snap_to_char_boundary s idx ≤ idx := by
  unfold snap_to_char_boundary
  split
  · assumption
  · exact snapLoop_le s idx

theorem snap_le_utf8Len (s : Str) (idx : Nat) :
    snap_to_char_boundary s idx ≤ utf8Len s := by
  unfold snap_to_char_boundary
  split
  · exact le_refl _
  · exact le_trans (snapLoop_le s idx) (by omega)

theorem le_snap {s : Str} {b idx : Nat} (hb : isCharBoundary s b = true)
    (hbi : b ≤ idx) : b ≤ snap_to_char_boundary s idx := by
  unfold snap_to_char_boundary
  split
  · exact isCharBoundary_le hb
  · exact le_snapLoop hb hbi

/- ---------- match and scan lemmas ---------- -/

theorem matchEnds_ge (s : Str) (re : Rx) :
    ∀ (p : Nat) (e : Nat), e ∈ matchEnds s re p → p ≤ e := by
  induction re with
  | strLit l =>
      intro p e he
      unfold matchEnds at he
      split at he
      · simp at he
        omega
      · cases he
  | cls pr =>
      intro p e he
      unfold matchEnds at he
      split at he
      · split at he
        · simp at he
          omega
        · cases he
      · cases he
  | seq a b iha ihb =>
      intro p e he
      unfold matchEnds at he
      rw [List.mem_flatMap] at he
      obtain ⟨mid, hmid, hee⟩ := he
      exact le_trans (iha p mid hmid) (ihb mid e hee)
  | alt a b iha ihb =>
      intro p e he
      unfold matchEnds at he
      rw [List.mem_append] at he
      cases he with
      | inl h => exact iha p e h
      | inr h => exact ihb p e h
  | opt a iha =>
      intro p e he
      unfold matchEnds at he
      rw [List.mem_append] at he
      cases he with
      | inl h => exact iha p e h
      | inr h => simp at h; omega
  | rep pr lo hi =>
      intro p e he
      unfold matchEnds at he
      cases hi with
      | none =>
          simp only at he
          split at he
          · cases he
          · rw [List.mem_map] at he
            obtain ⟨k, hkm, hk⟩ := he
            rw [List.mem_range] at hkm
            omega
      | some hb =>
          simp only at he
          split at he
          · cases he
          · rw [List.mem_map] at he
            obtain ⟨k, hkm, hk⟩ := he
            rw [List.mem_range] at hkm
            omega

theorem matchAt_ge {s : Str} {re : Rx} {p e : Nat} (h : matchAt s re p = some e) :
    p ≤ e :=
  matchEnds_ge s re p e (List.mem_of_mem_head? (by simp [matchAt] at h ⊢; exact h))

theorem findIterGo_start_ge (s : Str) (re : Rx) :
    ∀ (fuel p : Nat) (x : Nat × Nat), x ∈ findIterGo s re fuel p → p ≤ x.1 := by
  intro fuel
  induction fuel with
  | zero => intro p x hx; cases hx
  | succ f ih =>
      intro p x hx
      unfold findIterGo at hx
      split at hx
      · cases hx
      · split at hx
        · rw [List.mem_cons] at hx
          cases hx with
          | inl h => rw [h]
          | inr h =>
              have := ih _ x h
              omega
        · have := ih _ x hx
          omega

theorem findIterGo_le (s : Str) (re : Rx) :
    ∀ (fuel p : Nat) (x : Nat × Nat), x ∈ findIterGo s re fuel p → x.1 ≤ x.2 := by
  intro fuel
  induction fuel with
  | zero => intro p x hx; cases hx
  | succ f ih =>
      intro p x hx
      unfold findIterGo at hx
      split at hx
      · cases hx
      · split at hx
        · rename_i e he
          rw [List.mem_cons] at hx
          cases hx with
          | inl h => rw [h]; exact matchAt_ge he
          | inr h => exact ih _ x h
        · exact ih _ x hx

theorem findIterGo_pairwise (s : Str) (re : Rx) :
    ∀ (fuel p : Nat),
      List.Pairwise (fun x y : Nat × Nat => x.1 < y.1) (findIterGo s re fuel p) := by
  intro fuel
  induction fuel with
  | zero => intro p; exact List.Pairwise.nil
  | succ f ih =>
      intro p
      unfold findIterGo
      split
      · exact List.Pairwise.nil
      · split
        · refine List.Pairwise.cons ?_ (ih _)
          intro y hy
          have := findIterGo_start_ge s re f _ y hy
          show p < y.1
          omega
        · exact ih _

theorem findIter_le {t : Str} {re : Rx} {m : Nat × Nat} (h : m ∈ findIter t re) :
    m.1 ≤ m.2 :=
  findIterGo_le t re _ 0 m h

theorem findIter_byteStarts_pairwise (t : Str) (re : Rx) :
    List.Pairwise (· ≤ ·) ((findIter t re).map (fun m => charToByte t m.1)) :=
  (findIterGo_pairwise t re _ 0).map _
    (fun _ _ hab => charToByte_mono t (le_of_lt hab))

/-- C1: every `ExtractedEmail` produced by `ExtractedEntities::extract`
has a context equal to a byte slice of the input whose start and end both
lie on valid UTF-8 character boundaries, with start ≤ end ≤ total byte
length — so the slicing never panics and never splits a multi-byte
character. -/
theorem C1_email_context_boundaries (t : Str) (e : ExtractedEmail)
    (h : e ∈ (ExtractedEntities.extract t).emails) :
    ∃ a b, isCharBoundary t a = true ∧ isCharBoundary t b = true ∧
      a ≤ b ∧ b ≤ utf8Len t ∧ e.context = byteSlice t a b := by
  simp only [ExtractedEntities.extract, List.mem_map] at h
  obtain ⟨m, hm, rfl⟩ := h
  refine ⟨snap_to_char_boundary t (charToByte t m.1 - 30),
          snap_to_char_boundary t (min (charToByte t m.2 + 30) (utf8Len t)),
          snap_isBoundary t _, snap_isBoundary t _, ?_, snap_le_utf8Len t _, rfl⟩
  have h1 : snap_to_char_boundary t (charToByte t m.1 - 30) ≤ charToByte t m.1 :=
    le_trans (snap_le_idx t _) (by omega)
  have h2 : charToByte t m.1 ≤ charToByte t m.2 :=
    charToByte_mono t (findIter_le hm)
  have h3 : charToByte t m.2 ≤
      snap_to_char_boundary t (min (charToByte t m.2 + 30) (utf8Len t)) := by
    refine le_snap (isCharBoundary_charToByte t m.2) ?_
    have := charToByte_le_utf8Len t m.2
    omega
  omega

/-- Witness for C1 at `"x bob@ex.io"` and its single extracted email. -/
theorem C1_email_context_boundaries_witness :
    ∃ a b, isCharBoundary (str "x bob@ex.io") a = true ∧
      isCharBoundary (str "x bob@ex.io") b = true ∧
      a ≤ b ∧ b ≤ utf8Len (str "x bob@ex.io") ∧
      ({ address := str "bob@ex.io", context := str "x bob@ex.io",
         position := 2 } : ExtractedEmail).context = byteSlice (str "x bob@ex.io") a b :=
  C1_email_context_boundaries (str "x bob@ex.io")
    { address := str "bob@ex.io", context := str "x bob@ex.io", position := 2 }
    (by decide)

/-- C8 (amended): `emails`, `phone_numbers`, `urls` and `amounts` each
preserve non-decreasing match-start order from their single scan; but
`social_handles` is built from two scans concatenated — all Twitter
matches (in order) followed by all LinkedIn matches (in order) — so it is
not globally ordered by match start. -/
theorem C8_order_amended (t : Str) :
    List.Pairwise (· ≤ ·)
      ((ExtractedEntities.extract t).emails.map ExtractedEmail.position) ∧
    (ExtractedEntities.extract t).phone_numbers
        = (phoneMatches t).map (mkPhoneNumber t) ∧
    List.Pairwise (· ≤ ·) ((phoneMatches t).map (fun m => charToByte t m.1)) ∧
    (ExtractedEntities.extract t).urls = (urlMatches t).map (mkExtractedUrl t) ∧
    List.Pairwise (· ≤ ·) ((urlMatches t).map (fun m => charToByte t m.1)) ∧
    (ExtractedEntities.extract t).amounts
        = (amountMatches t).filterMap (fun m => parse_amount (matchStr t m)) ∧
    List.Pairwise (· ≤ ·) ((amountMatches t).map (fun m => charToByte t m.1)) ∧
    (ExtractedEntities.extract t).social_handles
        = (twitterMatches t).map (twitterHandle t)
            ++ (linkedinMatches t).map (linkedinHandle t) ∧
    List.Pairwise (· ≤ ·) ((twitterMatches t).map (fun m => charToByte t m.1)) ∧
    List.Pairwise (· ≤ ·) ((linkedinMatches t).map (fun m => charToByte t m.1)) := by
  refine ⟨?_, rfl, findIter_byteStarts_pairwise t phoneRx,
          rfl, findIter_byteStarts_pairwise t urlRx,
          rfl, findIter_byteStarts_pairwise t amountRx,
          rfl, findIter_byteStarts_pairwise t twitterRx,
          findIter_byteStarts_pairwise t linkedinRx⟩
  show List.Pairwise (· ≤ ·)
    (((emailMatches t).map (mkExtractedEmail t)).map ExtractedEmail.position)
  rw [List.map_map]
  exact findIter_byteStarts_pairwise t emailRx

/-- C8 counterexample: on `"linkedin.com/in/bob @alice"` the LinkedIn
match starts at offset 0 and the Twitter match at offset 20, yet
`social_handles` lists the Twitter handle first — the sequence is not in
non-decreasing match-start order. -/
theorem C8_social_order_counterexample :
    (ExtractedEntities.extract (str "linkedin.com/in/bob @alice")).social_handles
        = [{ platform := SocialPlatform.Twitter, handle := str "alice" },
           { platform := SocialPlatform.LinkedIn, handle := str "bob" }] ∧
    socialMatchStarts (str "linkedin.com/in/bob @alice") = [20, 0] ∧
    ¬ List.Pairwise (fun a b : Nat => a ≤ b)
        (socialMatchStarts (str "linkedin.com/in/bob @alice")) := by
  refine ⟨by decide, by decide, ?_⟩
  intro h
  have h20 : socialMatchStarts (str "linkedin.com/in/bob @alice") = [20, 0] := by
    decide
  rw [h20] at h
  exact absurd (List.rel_of_pairwise_cons h (show (0 : Nat) ∈ [0] by simp))
    (by decide)
